import Mathlib

/-!
Verification model of the active-learning loop of the baal repository
(notebook `notebooks/pytorch_lightning.ipynb`).

The notebook itself is glue code: it builds an `ActiveLearningDataset`
over CIFAR10, labels 10 random items, wraps the dataset in an
`ActiveLearningLoop` driven by the `BALD` heuristic, and runs an outer
driver loop of at most `AL_STEPS = 100` rounds of `trainer.fit` followed
by `loop.step()`, stopping as soon as `step()` returns a falsy value.

The implementations of `ActiveLearningDataset`, `ActiveLearningLoop` and
`BALD` live in the baal library and are not part of the provided sources;
following the specification they are modelled here from the spec's
contracts (each such definition carries a `Modelled from the spec:` doc
comment).  The outer driver loop and the `HParams` configuration model are
embedded directly from the notebook source.
-/

/-- Modelled from the spec: the error taxonomy of section 7
(`InsufficientPoolError`, `InvalidIndexError`, `DegenerateInputError`).
The baal implementations of these failure modes are not in the provided
sources. -/
inductive ALError where
  | insufficientPool
  | invalidIndex
  | degenerateInput
deriving DecidableEq, Repr

/-- Modelled from the spec: `LabeledPoolDataset` / `ActiveLearningDataset`
(baal implementation not in the provided sources).  A fixed index universe
`[0, n)` together with the set of labelled indices; the pool is the
complement. -/
structure ALDataset where
  n : Nat
  labelled : Finset Nat
deriving DecidableEq

deriving instance DecidableEq for Except

/-- Well-formedness: the label set only mentions indices of the universe. -/
def ALDataset.wf (s : ALDataset) : Prop :=
  s.labelled ⊆ Finset.range s.n

instance (s : ALDataset) : Decidable s.wf := by
  unfold ALDataset.wf; infer_instance

/-- The pool: indices of the universe that are not labelled. -/
def ALDataset.pool (s : ALDataset) : Finset Nat :=
  Finset.range s.n \ s.labelled

/-- Read-only count of pool items. -/
def ALDataset.pool_size (s : ALDataset) : Nat :=
  s.pool.card

/-- Read-only count of labelled items. -/
def ALDataset.labeled_size (s : ALDataset) : Nat :=
  s.labelled.card

/-- Modelled from the spec: `label(indices)` moves an explicit set of pool
indices into the label set; fails with `InvalidIndexError` if any index is
not currently in the pool (baal implementation not in the provided
sources). -/
def ALDataset.label (s : ALDataset) (idxs : Finset Nat) :
    Except ALError ALDataset :=
  if idxs ⊆ s.pool then
    .ok { s with labelled := s.labelled ∪ idxs }
  else
    .error .invalidIndex

/-- Modelled from the spec: `label_randomly(k)` selects `k` indices
uniformly at random from the current pool without replacement and moves
them into the label set, failing with `InsufficientPoolError` when `k`
exceeds the current pool size (baal implementation not in the provided
sources).  The random draw is modelled as the extra argument `chosen`:
theorems about successful calls assume `chosen` is a valid draw, i.e. a
`k`-element subset of the pool, which the library RNG guarantees. -/
def ALDataset.label_randomly (s : ALDataset) (k : Nat) (chosen : Finset Nat) :
    Except ALError ALDataset :=
  if s.pool_size < k then
    .error .insufficientPool
  else
    s.label chosen

/-- Pointwise sum of two probability vectors, padding the shorter one
with zeros. -/
def addDist : List ℚ → List ℚ → List ℚ
  | [], ys => ys
  | xs, [] => xs
  | x :: xs, y :: ys => (x + y) :: addDist xs ys

/-- Pointwise sum of a family of probability vectors. -/
def sumDist (passes : List (List ℚ)) : List ℚ :=
  passes.foldr addDist []

/-- Modelled from the spec: the `BALD` uncertainty score of one item given
its `M` stochastic forward-pass distributions (baal implementation not in
the provided sources).  Mutual-information-style combination: the
per-distribution entropy of the mean of the passes minus the mean of the
per-distribution entropies.  The per-distribution entropy `H` is kept as a
parameter (it is a transcendental function of the floating-point
distribution in the library); every claim about `BALD` concerns only the
aggregation across passes, which is fully modelled. -/
def BALD.score (H : List ℚ → ℚ) (passes : List (List ℚ)) : ℚ :=
  H ((sumDist passes).map (fun x => x / (passes.length : ℚ))) -
    (passes.map H).sum / (passes.length : ℚ)

/-- Modelled from the spec: the heuristic fails with
`DegenerateInputError` when an item has zero passes; otherwise it returns
the `BALD.score`. -/
def BALD.compute (H : List ℚ → ℚ) (passes : List (List ℚ)) :
    Except ALError ℚ :=
  if passes.isEmpty then .error .degenerateInput
  else .ok (BALD.score H passes)

/-- Modelled from the spec: scoring a whole pool, propagating
`DegenerateInputError` from any item. -/
def BALD.computeAll (H : List ℚ → ℚ) (pss : List (List (List ℚ))) :
    Except ALError (List ℚ) :=
  if pss.any (fun passes => passes.isEmpty) then .error .degenerateInput
  else .ok (pss.map (BALD.score H))

/-- Modelled from the spec: the ranking order over pool positions —
score descending, ties broken by original pool index ascending. -/
def rkRel (scores : List ℚ) (i j : Nat) : Prop :=
  scores.getD j 0 < scores.getD i 0 ∨
    (scores.getD i 0 = scores.getD j 0 ∧ i ≤ j)

instance rkRelDec (scores : List ℚ) : DecidableRel (rkRel scores) := by
  intro i j; unfold rkRel; infer_instance

/-- Modelled from the spec: the heuristic's ranking rule — the pool
positions `0, …, n-1` sorted by score descending with ties broken by pool
index ascending (baal implementation not in the provided sources). -/
def rank (scores : List ℚ) : List Nat :=
  List.insertionSort (rkRel scores) (List.range scores.length)

/-- Modelled from the spec: the observable states of the loop state
machine (the transient `SCORING` and `LABELING` states live entirely
inside one `step()` call). -/
inductive LoopState where
  | ready
  | done
deriving DecidableEq

/-- Modelled from the spec: `ActiveLearningLoop` — the dataset it owns,
its state-machine state, and the `ndata_to_label` budget per round (baal
implementation not in the provided sources; the notebook instantiates it
with `ndata_to_label = hparams.query_size`). -/
structure ALLoop where
  dataset : ALDataset
  state : LoopState
  ndata_to_label : Nat

/-- The pool view handed to the probability-estimation collaborator: the
pool indices in ascending order. -/
def ALDataset.poolList (s : ALDataset) : List Nat :=
  (List.range s.n).filter (fun i => decide (i ∉ s.labelled))

/-- Modelled from the spec: the labeling selection of one round — the top
`k` positions of the ranking, mapped back to pool indices through the pool
view `p`. -/
def stepChoice (p : List Nat) (k : Nat) (scores : List ℚ) : Finset Nat :=
  (((rank scores).take k).map (fun i => p.getD i 0)).toFinset

/-- Modelled from the spec: one `ActiveLearningLoop.step()` call (baal
implementation not in the provided sources).
1. empty pool → transition to `DONE`, report no more work;
2. invoke the probability-estimation collaborator `getProb` on the pool
   view (its error propagates, leaving the dataset untouched);
3. score with the `BALD` heuristic and rank;
4. label the top `ndata_to_label` pool items (or fewer, via `stepChoice`)
   with `label`;
5. return to `READY` reporting that more work may remain. -/
def ALLoop.step (H : List ℚ → ℚ)
    (getProb : List Nat → Except ALError (List (List (List ℚ))))
    (lp : ALLoop) : Except ALError (ALLoop × Bool) :=
  if lp.dataset.poolList.isEmpty then
    .ok ({ lp with state := .done }, false)
  else
    match getProb lp.dataset.poolList with
    | .error e => .error e
    | .ok pss =>
      match BALD.computeAll H pss with
      | .error e => .error e
      | .ok scores =>
        match lp.dataset.label
            (stepChoice lp.dataset.poolList lp.ndata_to_label scores) with
        | .error e => .error e
        | .ok ds => .ok ({ lp with dataset := ds, state := .ready }, true)

/-- One successful dataset mutation: a `label`, a `label_randomly`, or the
dataset component of a successful `step`. -/
inductive Evolves : ALDataset → ALDataset → Prop where
  | label (s : ALDataset) (idxs : Finset Nat) (t : ALDataset)
      (h : s.label idxs = .ok t) : Evolves s t
  | label_randomly (s : ALDataset) (k : Nat) (chosen : Finset Nat)
      (t : ALDataset) (h : s.label_randomly k chosen = .ok t) : Evolves s t
  | loop_step (H : List ℚ → ℚ)
      (getProb : List Nat → Except ALError (List (List (List ℚ))))
      (lp lp' : ALLoop) (b : Bool)
      (h : lp.step H getProb = .ok (lp', b)) :
      Evolves lp.dataset lp'.dataset

/-- A state reachable from another through any sequence of operations. -/
def Reachable : ALDataset → ALDataset → Prop :=
  Relation.ReflTransGen Evolves

/-- The hyperparameter model of the notebook (`class HParams(BaseModel)`).
`n_gpus` defaults to `torch.cuda.device_count()` in the source, an
environment-dependent value; it is a plain field here. -/
structure HParams where
  batch_size : Nat := 10
  data_root : String := "/tmp"
  num_classes : Nat := 10
  learning_rate : ℚ := 1 / 1000
  query_size : Nat := 100
  max_sample : Int := -1
  iterations : Nat := 20
  replicate_in_memory : Bool := true
  n_gpus : Nat := 0

/-- The round budget of the notebook's outer driver loop
(`AL_STEPS = 100`). -/
def AL_STEPS : Nat := 100

/-- One observable action of the outer driver loop: a `trainer.fit` call
or a `loop.step()` call together with the value it returned. -/
inductive DriverEvent where
  | fit (round : Nat)
  | stepCall (round : Nat) (should_continue : Bool)
deriving DecidableEq

/-- The notebook's outer driver loop
(`for al_step in range(AL_STEPS): trainer.fit(model);
should_continue = loop.step(); if not should_continue: break`),
as the trace of events it performs.  `stepResult i` abstracts the truth
value of round `i`'s `loop.step()` call. -/
def driverAux (stepResult : Nat → Bool) : Nat → Nat → List DriverEvent
  | 0, _ => []
  | fuel + 1, i =>
      DriverEvent.fit i :: DriverEvent.stepCall i (stepResult i) ::
        (if stepResult i then driverAux stepResult fuel (i + 1) else [])

/-- The number of rounds the driver executes, starting at round `i` with
`fuel` iterations remaining. -/
def roundsAux (stepResult : Nat → Bool) : Nat → Nat → Nat
  | 0, _ => 0
  | fuel + 1, i => 1 + (if stepResult i then roundsAux stepResult fuel (i + 1) else 0)

/-- The full driver trace of the notebook run. -/
def driver (stepResult : Nat → Bool) : List DriverEvent :=
  driverAux stepResult AL_STEPS 0

/-- The number of rounds the notebook run executes. -/
def driverRounds (stepResult : Nat → Bool) : Nat :=
  roundsAux stepResult AL_STEPS 0

/-- The notebook builds the loop with `ndata_to_label = hparams.query_size`
(`ActiveLearningLoop(active_set, ..., ndata_to_label=hparams.query_size)`). -/
def mkLoop (hp : HParams) (ds : ALDataset) : ALLoop :=
  { dataset := ds, state := .ready, ndata_to_label := hp.query_size }

/-- The per-round observable outcomes of a notebook run: the label set
after each executed round, stopping on a falsy `step()` or a raised
error.  `trainer.fit` is an external collaborator with no effect on the
dataset and is elided. -/
def runAux (H : List ℚ → ℚ)
    (getProb : List Nat → Except ALError (List (List (List ℚ)))) :
    Nat → ALLoop → List (Finset Nat)
  | 0, _ => []
  | fuel + 1, lp =>
    match lp.step H getProb with
    | .error _ => []
    | .ok (lp', b) =>
        lp'.dataset.labelled :: (if b then runAux H getProb fuel lp' else [])

/-- A full notebook run from configuration `hp` and initial dataset
`ds0`: the sequence of label sets after each round. -/
def runNotebook (hp : HParams) (H : List ℚ → ℚ)
    (getProb : List Nat → Except ALError (List (List (List ℚ))))
    (ds0 : ALDataset) : List (Finset Nat) :=
  runAux H getProb AL_STEPS (mkLoop hp ds0)

/-- The score of a pool item (by oracle index) recovered from the pool
view `p` and the score vector `scores` over pool positions. -/
def poolScore (p : List Nat) (scores : List ℚ) (idx : Nat) : ℚ :=
  scores.getD (p.indexOf idx) 0

theorem rkRel_total (scores : List ℚ) (i j : Nat) :
    rkRel scores i j ∨ rkRel scores j i := by
  unfold rkRel
  rcases lt_trichotomy (scores.getD i 0) (scores.getD j 0) with h | h | h
  · exact Or.inr (Or.inl h)
  · rcases Nat.le_total i j with hij | hij
    · exact Or.inl (Or.inr ⟨h, hij⟩)
    · exact Or.inr (Or.inr ⟨h.symm, hij⟩)
  · exact Or.inl (Or.inl h)

theorem rkRel_trans (scores : List ℚ) (i j k : Nat)
    (h₁ : rkRel scores i j) (h₂ : rkRel scores j k) : rkRel scores i k := by
  unfold rkRel at *
  rcases h₁ with h₁ | ⟨e₁, l₁⟩
  · rcases h₂ with h₂ | ⟨e₂, l₂⟩
    · exact Or.inl (h₂.trans h₁)
    · exact Or.inl (e₂ ▸ h₁)
  · rcases h₂ with h₂ | ⟨e₂, l₂⟩
    · exact Or.inl (e₁ ▸ h₂)
    · exact Or.inr ⟨e₁.trans e₂, l₁.trans l₂⟩

/-- The ranking is a permutation of the pool positions. -/
theorem rank_perm (scores : List ℚ) :
    (rank scores).Perm (List.range scores.length) :=
  List.perm_insertionSort _ _

/-- The ranking is sorted for the score-descending, index-ascending
order. -/
theorem rank_sorted (scores : List ℚ) :
    (rank scores).Sorted (rkRel scores) := by
  haveI : IsTotal Nat (rkRel scores) := ⟨rkRel_total scores⟩
  haveI : IsTrans Nat (rkRel scores) := ⟨rkRel_trans scores⟩
  exact List.sorted_insertionSort _ _

theorem ALDataset.disjoint_labelled_pool (s : ALDataset) :
    Disjoint s.labelled s.pool :=
  Finset.disjoint_sdiff

theorem ALDataset.label_ok {s : ALDataset} {idxs : Finset Nat}
    {t : ALDataset} (h : s.label idxs = .ok t) :
    idxs ⊆ s.pool ∧ t.n = s.n ∧ t.labelled = s.labelled ∪ idxs := by
  unfold ALDataset.label at h
  split at h
  case isTrue hsub => cases h; exact ⟨hsub, rfl, rfl⟩
  case isFalse hsub => cases h

theorem ALDataset.label_randomly_ok {s : ALDataset} {k : Nat}
    {chosen : Finset Nat} {t : ALDataset}
    (h : s.label_randomly k chosen = .ok t) :
    k ≤ s.pool_size ∧ s.label chosen = .ok t := by
  unfold ALDataset.label_randomly at h
  split at h
  case isTrue hk => cases h
  case isFalse hk => exact ⟨Nat.le_of_not_lt hk, h⟩

theorem ALLoop.step_ok_dataset {H : List ℚ → ℚ}
    {getProb : List Nat → Except ALError (List (List (List ℚ)))}
    {lp lp' : ALLoop} {b : Bool} (h : lp.step H getProb = .ok (lp', b)) :
    lp'.dataset = lp.dataset ∨
      ∃ idxs, lp.dataset.label idxs = .ok lp'.dataset := by
  unfold ALLoop.step at h
  split at h
  · cases h; exact Or.inl rfl
  · cases hg : getProb lp.dataset.poolList with
    | error e => rw [hg] at h; cases h
    | ok pss =>
      rw [hg] at h; dsimp only at h
      cases hc : BALD.computeAll H pss with
      | error e => rw [hc] at h; cases h
      | ok scores =>
        rw [hc] at h; dsimp only at h
        cases hl : lp.dataset.label
            (stepChoice lp.dataset.poolList lp.ndata_to_label scores) with
        | error e => rw [hl] at h; cases h
        | ok ds => rw [hl] at h; cases h; exact Or.inr ⟨_, hl⟩

theorem evolves_preserves {s t : ALDataset} (h : Evolves s t) (hwf : s.wf) :
    t.n = s.n ∧ t.wf ∧ s.labelled ⊆ t.labelled := by
  have oflabel : ∀ idxs u, s.label idxs = .ok u →
      u.n = s.n ∧ u.wf ∧ s.labelled ⊆ u.labelled := by
    intro idxs u hl
    obtain ⟨hsub, hn, hlab⟩ := ALDataset.label_ok hl
    refine ⟨hn, ?_, ?_⟩
    · unfold ALDataset.wf
      rw [hn, hlab]
      exact Finset.union_subset hwf
        (hsub.trans ((Finset.sdiff_subset).trans (le_refl _)))
    · rw [hlab]; exact Finset.subset_union_left
  cases h with
  | label s idxs t hl => exact oflabel idxs t hl
  | label_randomly s k chosen t hl =>
      exact oflabel chosen t (ALDataset.label_randomly_ok hl).2
  | loop_step H getProb lp lp' b hstep =>
      rcases ALLoop.step_ok_dataset hstep with he | ⟨idxs, hl⟩
      · rw [he]; exact ⟨rfl, hwf, le_refl _⟩
      · exact oflabel idxs lp'.dataset hl

theorem reachable_preserves {s t : ALDataset} (h : Reachable s t)
    (hwf : s.wf) : t.n = s.n ∧ t.wf ∧ s.labelled ⊆ t.labelled := by
  induction h with
  | refl => exact ⟨rfl, hwf, le_refl _⟩
  | tail hstep hlast ih =>
      obtain ⟨hn, hwfm, hsub⟩ := ih
      obtain ⟨hn', hwf', hsub'⟩ := evolves_preserves hlast hwfm
      exact ⟨hn'.trans hn, hwf', hsub.trans hsub'⟩

/-- C2: in every reachable state of a run started from a well-formed
dataset, the label set and the pool are disjoint and together cover the
whole index universe `[0, N)` (so `pool_size + labeled_size = N`), the
universe size is unchanged, and the label set never loses a member. -/
theorem claim_C2_partition_invariant {s t : ALDataset}
    (hwf : s.wf) (h : Reachable s t) :
    t.n = s.n ∧
      Disjoint t.labelled t.pool ∧
      t.labelled ∪ t.pool = Finset.range t.n ∧
      t.pool_size + t.labeled_size = t.n ∧
      s.labelled ⊆ t.labelled := by
  obtain ⟨hn, hwft, hsub⟩ := reachable_preserves h hwf
  refine ⟨hn, t.disjoint_labelled_pool, ?_, ?_, hsub⟩
  · unfold ALDataset.pool
    exact Finset.union_sdiff_of_subset hwft
  · unfold ALDataset.pool_size ALDataset.labeled_size ALDataset.pool
    rw [Finset.card_sdiff_add_card_eq_card hwft, Finset.card_range]

/-- Witness for C2 at a concrete reachable state: one `label_randomly`
call from the empty-label dataset over 3 indices. -/
theorem claim_C2_partition_invariant_witness :
    ({ n := 3, labelled := {0, 2} } : ALDataset).n = 3 ∧
      ({ n := 3, labelled := {0, 2} } : ALDataset).pool_size +
        ({ n := 3, labelled := {0, 2} } : ALDataset).labeled_size = 3 := by
  have hreach : Reachable { n := 3, labelled := ∅ }
      { n := 3, labelled := {0, 2} } := by
    refine Relation.ReflTransGen.single
      (Evolves.label_randomly _ 2 ({0, 2} : Finset Nat) _ ?_)
    decide
  have := claim_C2_partition_invariant (by decide) hreach
  exact ⟨this.1, this.2.2.2.1⟩

/-- C3: `label_randomly k` on a dataset whose pool holds fewer than `k`
items fails with `InsufficientPoolError`; no successor state is produced,
so the label set and the pool are those of the state before the call. -/
theorem claim_C3_label_randomly_insufficient (s : ALDataset) (k : Nat)
    (chosen : Finset Nat) (h : s.pool_size < k) :
    s.label_randomly k chosen = .error .insufficientPool := by
  unfold ALDataset.label_randomly
  rw [if_pos h]

/-- Witness for C3: a 1-item pool cannot label 2 items. -/
theorem claim_C3_label_randomly_insufficient_witness :
    ({ n := 1, labelled := ∅ } : ALDataset).pool_size < 2 ∧
      ({ n := 1, labelled := ∅ } : ALDataset).label_randomly 2 ∅ =
        .error .insufficientPool :=
  ⟨by decide, claim_C3_label_randomly_insufficient _ 2 ∅ (by decide)⟩

/-- C4: from an empty label set over `[0, N)`, a successful
`label_randomly k` (whose random draw is a `k`-element subset of the
pool, drawn without replacement) leaves `labeled_size = k`,
`pool_size = N - k`, and a label set disjoint from the pool. -/
theorem claim_C4_label_randomly_success (s : ALDataset) (k : Nat)
    (chosen : Finset Nat) (h0 : s.labelled = ∅) (hsub : chosen ⊆ s.pool)
    (hcard : chosen.card = k) :
    ∃ t, s.label_randomly k chosen = .ok t ∧
      t.labeled_size = k ∧
      t.pool_size = s.n - k ∧
      Disjoint t.labelled t.pool := by
  have hpool : s.pool = Finset.range s.n := by
    unfold ALDataset.pool; rw [h0, Finset.sdiff_empty]
  have hk : ¬s.pool_size < k := by
    have : chosen.card ≤ s.pool.card := Finset.card_le_card hsub
    unfold ALDataset.pool_size
    omega
  refine ⟨{ s with labelled := s.labelled ∪ chosen }, ?_, ?_, ?_, ?_⟩
  · unfold ALDataset.label_randomly ALDataset.label
    rw [if_neg hk, if_pos hsub]
  · unfold ALDataset.labeled_size
    rw [h0, Finset.empty_union, hcard]
  · unfold ALDataset.pool_size ALDataset.pool
    rw [h0, Finset.empty_union]
    rw [Finset.card_sdiff (hpool ▸ hsub), Finset.card_range, hcard]
  · exact ALDataset.disjoint_labelled_pool _

/-- Witness for C4: labeling the draw `{0, 1}` from a fresh 3-item
dataset. -/
theorem claim_C4_label_randomly_success_witness :
    ∃ t, ({ n := 3, labelled := ∅ } : ALDataset).label_randomly 2 {0, 1} =
        .ok t ∧
      t.labeled_size = 2 ∧ t.pool_size = 3 - 2 ∧
      Disjoint t.labelled t.pool :=
  claim_C4_label_randomly_success { n := 3, labelled := ∅ } 2 {0, 1}
    (by decide) (by decide) (by decide)

theorem addDist_comm (xs ys : List ℚ) : addDist xs ys = addDist ys xs := by
  induction xs generalizing ys with
  | nil => cases ys <;> simp only [addDist]
  | cons x xs ih =>
      cases ys with
      | nil => simp only [addDist]
      | cons y ys => simp only [addDist]; rw [add_comm, ih]

theorem addDist_assoc (a b c : List ℚ) :
    addDist (addDist a b) c = addDist a (addDist b c) := by
  induction a generalizing b c with
  | nil => simp only [addDist]
  | cons x xs ih =>
      cases b with
      | nil => simp only [addDist]
      | cons y ys =>
          cases c with
          | nil => simp only [addDist]
          | cons z zs => simp only [addDist]; rw [add_assoc, ih]

theorem addDist_left_comm (a b c : List ℚ) :
    addDist a (addDist b c) = addDist b (addDist a c) := by
  rw [← addDist_assoc, addDist_comm a b, addDist_assoc]

theorem sumDist_perm {l₁ l₂ : List (List ℚ)} (p : l₁.Perm l₂) :
    sumDist l₁ = sumDist l₂ := by
  haveI : LeftCommutative addDist := ⟨addDist_left_comm⟩
  exact p.foldr_eq []

theorem BALD.score_perm (H : List ℚ → ℚ) {passes passes' : List (List ℚ)}
    (hperm : passes.Perm passes') :
    BALD.score H passes = BALD.score H passes' := by
  unfold BALD.score
  rw [sumDist_perm hperm, hperm.length_eq, (hperm.map H).sum_eq]

/-- C5: the BALD heuristic gives every item the same score under any
reordering of its `M ≥ 1` stochastic forward-pass distributions, both as
a raw score and through the degenerate-input check. -/
theorem claim_C5_bald_perm_invariant (H : List ℚ → ℚ)
    {passes passes' : List (List ℚ)} (hperm : passes.Perm passes')
    (hM : 1 ≤ passes.length) :
    BALD.score H passes = BALD.score H passes' ∧
      BALD.compute H passes = BALD.compute H passes' := by
  refine ⟨BALD.score_perm H hperm, ?_⟩
  have h1 : passes.isEmpty = false := by
    cases passes with
    | nil => simp at hM
    | cons a as => rfl
  have h2 : passes'.isEmpty = false := by
    cases hp' : passes' with
    | nil => rw [hp'] at hperm; rw [hperm.length_eq] at hM; simp at hM
    | cons b bs => rfl
  unfold BALD.compute
  rw [h1, h2, BALD.score_perm H hperm]

/-- Witness for C5: two orderings of the same two stochastic passes,
scored with the sum-of-squares stand-in for the entropy. -/
theorem claim_C5_bald_perm_invariant_witness :
    BALD.score (fun l => (l.map (fun x => x * x)).sum)
        [[(1 : ℚ)/2, 1/2], [1, 0]] =
      BALD.score (fun l => (l.map (fun x => x * x)).sum)
        [[(1 : ℚ), 0], [1/2, 1/2]] ∧
      BALD.compute (fun l => (l.map (fun x => x * x)).sum)
        [[(1 : ℚ)/2, 1/2], [1, 0]] =
      BALD.compute (fun l => (l.map (fun x => x * x)).sum)
        [[(1 : ℚ), 0], [1/2, 1/2]] :=
  claim_C5_bald_perm_invariant _ (List.Perm.swap [(1 : ℚ), 0] [1/2, 1/2] [])
    (by decide)

theorem roundsAux_le (sr : Nat → Bool) (fuel i : Nat) :
    roundsAux sr fuel i ≤ fuel := by
  induction fuel generalizing i with
  | zero => simp [roundsAux]
  | succ fuel ih =>
      unfold roundsAux
      split
      · have := ih (i + 1); omega
      · omega

theorem roundsAux_pos (sr : Nat → Bool) (fuel i : Nat) (h : 1 ≤ fuel) :
    1 ≤ roundsAux sr fuel i := by
  cases fuel with
  | zero => omega
  | succ fuel => unfold roundsAux; split <;> omega

theorem driverAux_shape (sr : Nat → Bool) (fuel i : Nat) :
    driverAux sr fuel i =
      (List.range' i (roundsAux sr fuel i)).flatMap
        (fun j => [DriverEvent.fit j, DriverEvent.stepCall j (sr j)]) := by
  induction fuel generalizing i with
  | zero => simp [driverAux, roundsAux]
  | succ fuel ih =>
      unfold driverAux roundsAux
      by_cases hsr : sr i
      · rw [if_pos hsr, if_pos hsr, ih (i + 1)]
        rw [Nat.add_comm 1 (roundsAux sr fuel (i + 1)), List.range'_succ]
        simp [List.flatMap_cons]
      · rw [if_neg hsr, if_neg hsr]
        simp [List.range'_succ, List.flatMap_cons]

theorem roundsAux_mid_true (sr : Nat → Bool) (fuel i k : Nat)
    (h : k + 1 < roundsAux sr fuel i) : sr (i + k) = true := by
  induction fuel generalizing i k with
  | zero => unfold roundsAux at h; omega
  | succ fuel ih =>
      unfold roundsAux at h
      by_cases hsr : sr i
      · rw [if_pos hsr] at h
        cases k with
        | zero => exact hsr
        | succ k =>
            have := ih (i + 1) k (by omega)
            rw [show i + (k + 1) = i + 1 + k by omega]
            exact this
      · rw [if_neg hsr] at h; omega

theorem roundsAux_last_false (sr : Nat → Bool) (fuel i : Nat)
    (h : roundsAux sr fuel i < fuel) :
    sr (i + (roundsAux sr fuel i - 1)) = false := by
  induction fuel generalizing i with
  | zero => omega
  | succ fuel ih =>
      unfold roundsAux at h ⊢
      by_cases hsr : sr i
      · rw [if_pos hsr] at h ⊢
        have hfuel : 1 ≤ fuel := by
          have := roundsAux_le sr fuel (i + 1); omega
        have hpos := roundsAux_pos sr fuel (i + 1) hfuel
        have := ih (i + 1) (by omega)
        rw [show i + (1 + roundsAux sr fuel (i + 1) - 1) =
          i + 1 + (roundsAux sr fuel (i + 1) - 1) by omega]
        exact this
      · rw [if_neg hsr] at h ⊢
        simpa using hsr

/-- C9: the notebook's outer driver loop executes at most
`AL_STEPS = 100` rounds; each executed round is a `trainer.fit` followed
by the round's `loop.step()` call; every non-final executed round's
`step()` reported more work; and when the loop stops before exhausting
the 100-round budget, the last executed round's `step()` reported no
more work. -/
theorem claim_C9_driver_termination (sr : Nat → Bool) :
    driverRounds sr ≤ AL_STEPS ∧
      driver sr =
        (List.range (driverRounds sr)).flatMap
          (fun j => [DriverEvent.fit j, DriverEvent.stepCall j (sr j)]) ∧
      (∀ i, i + 1 < driverRounds sr → sr i = true) ∧
      (driverRounds sr < AL_STEPS → sr (driverRounds sr - 1) = false) := by
  refine ⟨roundsAux_le sr AL_STEPS 0, ?_, ?_, ?_⟩
  · unfold driver driverRounds
    rw [driverAux_shape, List.range_eq_range']
  · intro i h
    have := roundsAux_mid_true sr AL_STEPS 0 i h
    simpa using this
  · intro h
    have := roundsAux_last_false sr AL_STEPS 0 h
    simpa using this

/-- Witness for C9: the run whose every `step()` reports no more work
executes exactly one round, whose `step()` call reported `false`. -/
theorem claim_C9_driver_termination_witness :
    driverRounds (fun _ => false) ≤ AL_STEPS ∧
      (driverRounds (fun _ => false) < AL_STEPS →
        (fun _ => false) (driverRounds (fun _ => false) - 1) = false) :=
  ⟨(claim_C9_driver_termination (fun _ => false)).1,
    (claim_C9_driver_termination (fun _ => false)).2.2.2⟩

/-- C10: two notebook runs whose configurations differ only in
`max_sample` have identical observable outcomes — the same label set
after every round, hence the same sizes and the same stopping round.
The notebook declares `max_sample` in `HParams` but never reads it
(its comment defers support to a later version), and the loop is built
from `query_size` alone. -/
theorem claim_C10_max_sample_no_effect (hp : HParams) (m : Int)
    (H : List ℚ → ℚ)
    (getProb : List Nat → Except ALError (List (List (List ℚ))))
    (ds0 : ALDataset) :
    runNotebook { hp with max_sample := m } H getProb ds0 =
      runNotebook hp H getProb ds0 := rfl

/-- C7: when the probability-estimation collaborator fails on a
non-empty pool, `step()` propagates exactly that error and produces no
successor loop state: the dataset the caller holds — its label set and
pool — is the one from before the call. -/
theorem claim_C7_estimation_error_no_mutation (H : List ℚ → ℚ)
    (getProb : List Nat → Except ALError (List (List (List ℚ))))
    (lp : ALLoop) (e : ALError)
    (hne : lp.dataset.poolList.isEmpty = false)
    (herr : getProb lp.dataset.poolList = .error e) :
    lp.step H getProb = .error e ∧
      ∀ lp' b, lp.step H getProb ≠ .ok (lp', b) := by
  have hstep : lp.step H getProb = .error e := by
    unfold ALLoop.step
    rw [hne, herr]
    simp
  exact ⟨hstep, fun lp' b hok => by rw [hstep] at hok; cases hok⟩

/-- Witness for C7: a collaborator that always fails, on a 1-item pool. -/
theorem claim_C7_estimation_error_no_mutation_witness :
    ALLoop.step (fun _ => 0) (fun _ => .error .degenerateInput)
        { dataset := { n := 1, labelled := ∅ }, state := .ready,
          ndata_to_label := 1 } =
      .error .degenerateInput :=
  (claim_C7_estimation_error_no_mutation (fun _ => 0)
    (fun _ => .error .degenerateInput)
    { dataset := { n := 1, labelled := ∅ }, state := .ready,
      ndata_to_label := 1 }
    .degenerateInput (by decide) rfl).1

theorem ALDataset.poolList_nodup (s : ALDataset) : s.poolList.Nodup :=
  (List.nodup_range s.n).filter _

theorem ALDataset.mem_poolList {s : ALDataset} {i : Nat} :
    i ∈ s.poolList ↔ i ∈ s.pool := by
  unfold ALDataset.poolList ALDataset.pool
  simp [List.mem_filter, Finset.mem_sdiff]

theorem ALDataset.poolList_toFinset (s : ALDataset) :
    s.poolList.toFinset = s.pool :=
  Finset.ext fun i => by rw [List.mem_toFinset, ALDataset.mem_poolList]

theorem ALDataset.length_poolList (s : ALDataset) :
    s.poolList.length = s.pool_size := by
  rw [← List.toFinset_card_of_nodup s.poolList_nodup, s.poolList_toFinset]
  rfl

theorem ALDataset.poolList_isEmpty_iff (s : ALDataset) :
    s.poolList.isEmpty = true ↔ s.pool = ∅ := by
  rw [List.isEmpty_iff, ← Finset.card_eq_zero]
  show s.poolList = [] ↔ s.pool_size = 0
  rw [← ALDataset.length_poolList, List.length_eq_zero]

theorem rank_mem_lt {scores : List ℚ} {a : Nat} (h : a ∈ rank scores) :
    a < scores.length :=
  List.mem_range.mp ((rank_perm scores).mem_iff.mp h)

theorem rank_nodup (scores : List ℚ) : (rank scores).Nodup :=
  (rank_perm scores).nodup_iff.mpr (List.nodup_range _)

theorem rank_length (scores : List ℚ) :
    (rank scores).length = scores.length := by
  rw [(rank_perm scores).length_eq, List.length_range]

theorem mem_stepChoice {p : List Nat} {k : Nat} {scores : List ℚ}
    {i : Nat} :
    i ∈ stepChoice p k scores ↔
      ∃ a ∈ (rank scores).take k, p.getD a 0 = i := by
  unfold stepChoice
  simp only [List.mem_toFinset, List.mem_map]

theorem stepChoice_subset {p : List Nat} {k : Nat} {scores : List ℚ}
    (hlen : scores.length = p.length) :
    stepChoice p k scores ⊆ p.toFinset := by
  intro i hi
  rw [mem_stepChoice] at hi
  obtain ⟨a, ha, rfl⟩ := hi
  have halt : a < p.length :=
    hlen ▸ rank_mem_lt (List.mem_of_mem_take ha)
  rw [List.mem_toFinset, List.getD_eq_getElem p 0 halt]
  exact List.getElem_mem halt

theorem stepChoice_card {p : List Nat} {k : Nat} {scores : List ℚ}
    (hlen : scores.length = p.length) (hnodup : p.Nodup) :
    (stepChoice p k scores).card = min k p.length := by
  unfold stepChoice
  have htake : ((rank scores).take k).Nodup :=
    (List.take_sublist k (rank scores)).nodup (rank_nodup scores)
  have hmap : (((rank scores).take k).map (fun a => p.getD a 0)).Nodup := by
    refine List.Nodup.map_on ?_ htake
    intro a ha b hb hab
    have halt : a < p.length :=
      hlen ▸ rank_mem_lt (List.mem_of_mem_take ha)
    have hblt : b < p.length :=
      hlen ▸ rank_mem_lt (List.mem_of_mem_take hb)
    rw [List.getD_eq_getElem p 0 halt, List.getD_eq_getElem p 0 hblt] at hab
    exact hnodup.getElem_inj_iff.mp hab
  rw [List.toFinset_card_of_nodup hmap, List.length_map, List.length_take,
    rank_length, hlen]

theorem stepChoice_dominates {p : List Nat} {k : Nat} {scores : List ℚ}
    (hlen : scores.length = p.length) (hnodup : p.Nodup) {i j : Nat}
    (hi : i ∈ stepChoice p k scores) (hj : j ∈ p.toFinset)
    (hjn : j ∉ stepChoice p k scores) :
    poolScore p scores j ≤ poolScore p scores i := by
  rw [mem_stepChoice] at hi
  obtain ⟨a, ha, rfl⟩ := hi
  have halt : a < p.length :=
    hlen ▸ rank_mem_lt (List.mem_of_mem_take ha)
  rw [List.mem_toFinset] at hj
  obtain ⟨b, hblt, rfl⟩ := List.getElem_of_mem hj
  have hbR : b ∈ rank scores := by
    rw [(rank_perm scores).mem_iff, List.mem_range, hlen]
    exact hblt
  have hbsplit : b ∈ (rank scores).take k ++ (rank scores).drop k := by
    rw [List.take_append_drop]
    exact hbR
  have hbdrop : b ∈ (rank scores).drop k := by
    rcases List.mem_append.mp hbsplit with h | h
    · exact absurd (mem_stepChoice.mpr
        ⟨b, h, by rw [List.getD_eq_getElem p 0 hblt]⟩) hjn
    · exact h
  have hrel : rkRel scores a b :=
    (rank_sorted scores).rel_of_mem_take_of_mem_drop ha hbdrop
  unfold poolScore
  rw [List.getD_eq_getElem p 0 halt]
  rw [List.indexOf_getElem hnodup a halt, List.indexOf_getElem hnodup b hblt]
  rcases hrel with h | ⟨h, _⟩
  · exact le_of_lt h
  · exact le_of_eq h.symm

theorem pool_after_label (s : ALDataset) (S : Finset Nat) :
    ({ s with labelled := s.labelled ∪ S } : ALDataset).pool = s.pool \ S := by
  unfold ALDataset.pool
  ext i
  simp only [Finset.mem_sdiff, Finset.mem_union]
  tauto

theorem step_label_spec (H : List ℚ → ℚ)
    (getProb : List Nat → Except ALError (List (List (List ℚ))))
    (lp : ALLoop) (pss : List (List (List ℚ)))
    (hne : lp.dataset.poolList.isEmpty = false)
    (hg : getProb lp.dataset.poolList = .ok pss)
    (hlen : pss.length = lp.dataset.poolList.length)
    (hdeg : ∀ ps ∈ pss, ps.isEmpty = false) :
    lp.step H getProb =
      .ok ({ lp with
              dataset := { lp.dataset with labelled :=
                (lp.dataset.labelled ∪ stepChoice lp.dataset.poolList
                  lp.ndata_to_label (pss.map (BALD.score H))) },
              state := .ready }, true) ∧
      stepChoice lp.dataset.poolList lp.ndata_to_label
          (pss.map (BALD.score H)) ⊆ lp.dataset.pool ∧
      (stepChoice lp.dataset.poolList lp.ndata_to_label
          (pss.map (BALD.score H))).card =
        min lp.ndata_to_label lp.dataset.pool_size ∧
      ∀ i ∈ stepChoice lp.dataset.poolList lp.ndata_to_label
          (pss.map (BALD.score H)),
        ∀ j ∈ lp.dataset.pool \ stepChoice lp.dataset.poolList
            lp.ndata_to_label (pss.map (BALD.score H)),
          poolScore lp.dataset.poolList (pss.map (BALD.score H)) j ≤
            poolScore lp.dataset.poolList (pss.map (BALD.score H)) i := by
  have hlen2 : (pss.map (BALD.score H)).length = lp.dataset.poolList.length := by
    rw [List.length_map]; exact hlen
  have hnodup := lp.dataset.poolList_nodup
  have hsub : stepChoice lp.dataset.poolList lp.ndata_to_label
      (pss.map (BALD.score H)) ⊆ lp.dataset.pool := by
    rw [← lp.dataset.poolList_toFinset]
    exact stepChoice_subset hlen2
  have hany : pss.any (fun ps => ps.isEmpty) = false := by
    rw [List.any_eq_false]
    intro ps hps
    simp [hdeg ps hps]
  have hcomp : BALD.computeAll H pss = .ok (pss.map (BALD.score H)) := by
    unfold BALD.computeAll
    rw [hany]
    simp
  have hlabel : lp.dataset.label (stepChoice lp.dataset.poolList
      lp.ndata_to_label (pss.map (BALD.score H))) =
      .ok { lp.dataset with labelled := (lp.dataset.labelled ∪
        stepChoice lp.dataset.poolList lp.ndata_to_label
          (pss.map (BALD.score H))) } := by
    unfold ALDataset.label
    rw [if_pos hsub]
  refine ⟨?_, hsub, ?_, ?_⟩
  · unfold ALLoop.step
    rw [hne, hg]
    simp only [Bool.false_eq_true, if_false]
    rw [hcomp]
    simp only
    rw [hlabel]
  · rw [stepChoice_card hlen2 hnodup, lp.dataset.length_poolList]
  · intro i hi j hj
    rw [Finset.mem_sdiff] at hj
    exact stepChoice_dominates hlen2 hnodup hi
      (by rw [lp.dataset.poolList_toFinset]; exact hj.1) hj.2

/-- C1: on a non-empty pool (with a well-behaved collaborator answer:
one score-input per pool item, each with at least one pass), one
`step()` call moves exactly `min(ndata_to_label, pool size)` pool items
into the label set, and every labeled item scores at least as high as
every pool item left unlabeled; the pool shrinks by exactly that count
(100-item pool with `ndata_to_label = 10`: the 10 highest-scored items
are labeled and 90 remain). -/
theorem claim_C1_step_labels_top_scored (H : List ℚ → ℚ)
    (getProb : List Nat → Except ALError (List (List (List ℚ))))
    (lp : ALLoop) (pss : List (List (List ℚ)))
    (hne : lp.dataset.poolList.isEmpty = false)
    (hg : getProb lp.dataset.poolList = .ok pss)
    (hlen : pss.length = lp.dataset.poolList.length)
    (hdeg : ∀ ps ∈ pss, ps.isEmpty = false) :
    ∃ lp' S, lp.step H getProb = .ok (lp', true) ∧
      lp'.dataset.labelled = lp.dataset.labelled ∪ S ∧
      S ⊆ lp.dataset.pool ∧
      S.card = min lp.ndata_to_label lp.dataset.pool_size ∧
      lp'.dataset.pool_size =
        lp.dataset.pool_size - min lp.ndata_to_label lp.dataset.pool_size ∧
      ∀ i ∈ S, ∀ j ∈ lp.dataset.pool \ S,
        poolScore lp.dataset.poolList (pss.map (BALD.score H)) j ≤
          poolScore lp.dataset.poolList (pss.map (BALD.score H)) i := by
  obtain ⟨hstep, hsub, hcard, hdom⟩ :=
    step_label_spec H getProb lp pss hne hg hlen hdeg
  refine ⟨_, stepChoice lp.dataset.poolList lp.ndata_to_label
    (pss.map (BALD.score H)), hstep, rfl, hsub, hcard, ?_, hdom⟩
  show ({ lp.dataset with labelled := (lp.dataset.labelled ∪
    stepChoice lp.dataset.poolList lp.ndata_to_label
      (pss.map (BALD.score H))) } : ALDataset).pool_size = _
  unfold ALDataset.pool_size
  rw [pool_after_label, Finset.card_sdiff hsub, hcard]
  rfl

/-- Witness for C1: a fresh 3-item pool, `ndata_to_label = 2`, and a
collaborator answering one single-pass distribution per item. -/
theorem claim_C1_step_labels_top_scored_witness :
    ∃ lp' S,
      ALLoop.step (fun l => l.sum)
          (fun p => .ok (p.map (fun _ => [[(1 : ℚ)]])))
          { dataset := { n := 3, labelled := ∅ }, state := .ready,
            ndata_to_label := 2 } = .ok (lp', true) ∧
      lp'.dataset.labelled =
        ({ n := 3, labelled := ∅ } : ALDataset).labelled ∪ S ∧
      S ⊆ ({ n := 3, labelled := ∅ } : ALDataset).pool ∧
      S.card = min 2 ({ n := 3, labelled := ∅ } : ALDataset).pool_size ∧
      lp'.dataset.pool_size =
        ({ n := 3, labelled := ∅ } : ALDataset).pool_size -
          min 2 ({ n := 3, labelled := ∅ } : ALDataset).pool_size ∧
      ∀ i ∈ S, ∀ j ∈ ({ n := 3, labelled := ∅ } : ALDataset).pool \ S,
        poolScore ({ n := 3, labelled := ∅ } : ALDataset).poolList
            ([[[(1 : ℚ)]], [[1]], [[1]]].map (BALD.score (fun l => l.sum)))
            j ≤
          poolScore ({ n := 3, labelled := ∅ } : ALDataset).poolList
            ([[[(1 : ℚ)]], [[1]], [[1]]].map (BALD.score (fun l => l.sum)))
            i :=
  claim_C1_step_labels_top_scored (fun l => l.sum)
    (fun p => .ok (p.map (fun _ => [[(1 : ℚ)]])))
    { dataset := { n := 3, labelled := ∅ }, state := .ready,
      ndata_to_label := 2 }
    [[[(1 : ℚ)]], [[1]], [[1]]] (by decide) rfl (by decide) (by decide)

theorem ALLoop.step_empty (H : List ℚ → ℚ)
    (getProb : List Nat → Except ALError (List (List (List ℚ))))
    (lp : ALLoop) (hpool : lp.dataset.pool = ∅) :
    lp.step H getProb = .ok ({ lp with state := .done }, false) := by
  unfold ALLoop.step
  rw [lp.dataset.poolList_isEmpty_iff.mpr hpool]
  rw [if_pos rfl]

/-- C6: the heuristic's ranking is a permutation of the pool positions,
sorted by score descending with ties broken by pool position ascending;
consequently two `step()` calls fed identical probability-estimation
outputs for the pool produce identical results — the round's selection
is fully deterministic. -/
theorem claim_C6_ranking_deterministic (scores : List ℚ) :
    (rank scores).Perm (List.range scores.length) ∧
      (rank scores).Sorted (rkRel scores) ∧
      ∀ (H : List ℚ → ℚ)
        (g₁ g₂ : List Nat → Except ALError (List (List (List ℚ))))
        (lp : ALLoop) (pss : List (List (List ℚ))),
        g₁ lp.dataset.poolList = .ok pss →
        g₂ lp.dataset.poolList = .ok pss →
        lp.step H g₁ = lp.step H g₂ := by
  refine ⟨rank_perm scores, rank_sorted scores, ?_⟩
  intro H g₁ g₂ lp pss h₁ h₂
  unfold ALLoop.step
  rw [h₁, h₂]

/-- Witness for C6: the ranking of a concrete 3-score vector, and two
collaborators agreeing on a concrete 1-item pool. -/
theorem claim_C6_ranking_deterministic_witness :
    (rank [(3 : ℚ), 1, 2]).Perm (List.range 3) ∧
      ALLoop.step (fun l => l.sum) (fun _ => .ok [[[(1 : ℚ)]]])
          { dataset := { n := 1, labelled := ∅ }, state := .ready,
            ndata_to_label := 1 } =
        ALLoop.step (fun l => l.sum) (fun _ => .ok [[[(1 : ℚ)]]])
          { dataset := { n := 1, labelled := ∅ }, state := .ready,
            ndata_to_label := 1 } :=
  ⟨(claim_C6_ranking_deterministic [(3 : ℚ), 1, 2]).1,
    (claim_C6_ranking_deterministic [(3 : ℚ), 1, 2]).2.2 (fun l => l.sum)
      (fun _ => .ok [[[(1 : ℚ)]]]) (fun _ => .ok [[[(1 : ℚ)]]])
      { dataset := { n := 1, labelled := ∅ }, state := .ready,
        ndata_to_label := 1 }
      [[[(1 : ℚ)]]] rfl rfl⟩

/-- C8: on an empty pool, `step()` transitions the loop to `DONE` and
reports no more work, leaving the dataset untouched; and on a non-empty
pool of at most `ndata_to_label` items (with a well-behaved collaborator
answer) `step()` labels every remaining pool item, after which any
subsequent `step()` call reports `DONE`. -/
theorem claim_C8_small_pool_finishes (H : List ℚ → ℚ)
    (getProb : List Nat → Except ALError (List (List (List ℚ))))
    (lp : ALLoop) :
    (lp.dataset.pool = ∅ →
      lp.step H getProb = .ok ({ lp with state := .done }, false)) ∧
    (∀ pss, lp.dataset.pool ≠ ∅ →
      lp.dataset.pool_size ≤ lp.ndata_to_label →
      getProb lp.dataset.poolList = .ok pss →
      pss.length = lp.dataset.poolList.length →
      (∀ ps ∈ pss, ps.isEmpty = false) →
      ∃ lp', lp.step H getProb = .ok (lp', true) ∧
        lp'.dataset.pool = ∅ ∧
        ∀ getProb₂, lp'.step H getProb₂ =
          .ok ({ lp' with state := .done }, false)) := by
  constructor
  · exact fun hpool => ALLoop.step_empty H getProb lp hpool
  · intro pss hpoolne hk hg hlen hdeg
    have hne : lp.dataset.poolList.isEmpty = false := by
      cases h : lp.dataset.poolList.isEmpty with
      | false => rfl
      | true => exact absurd (lp.dataset.poolList_isEmpty_iff.mp h) hpoolne
    obtain ⟨hstep, hsub, hcard, hdom⟩ :=
      step_label_spec H getProb lp pss hne hg hlen hdeg
    have hSfull : stepChoice lp.dataset.poolList lp.ndata_to_label
        (pss.map (BALD.score H)) = lp.dataset.pool := by
      refine Finset.eq_of_subset_of_card_le hsub ?_
      rw [hcard, Nat.min_eq_right hk]
      exact le_refl _
    have hpool' : ({ lp.dataset with labelled := (lp.dataset.labelled ∪
        stepChoice lp.dataset.poolList lp.ndata_to_label
          (pss.map (BALD.score H))) } : ALDataset).pool = ∅ := by
      rw [pool_after_label, hSfull, Finset.sdiff_self]
    refine ⟨_, hstep, hpool', ?_⟩
    intro getProb₂
    exact ALLoop.step_empty H getProb₂ _ hpool'

/-- Witness for C8: a dataset whose single index is already labelled
(empty pool), and a fresh 2-item pool with `ndata_to_label = 10`. -/
theorem claim_C8_small_pool_finishes_witness :
    (ALLoop.step (fun l => l.sum) (fun p => .ok (p.map (fun _ => [[(1 : ℚ)]])))
        { dataset := { n := 1, labelled := {0} }, state := .ready,
          ndata_to_label := 10 } =
      .ok ({ dataset := { n := 1, labelled := {0} }, state := .done,
             ndata_to_label := 10 }, false)) ∧
    (∃ lp', ALLoop.step (fun l => l.sum)
        (fun p => .ok (p.map (fun _ => [[(1 : ℚ)]])))
        { dataset := { n := 2, labelled := ∅ }, state := .ready,
          ndata_to_label := 10 } = .ok (lp', true) ∧
      lp'.dataset.pool = ∅ ∧
      ∀ getProb₂, ALLoop.step (fun l => l.sum) getProb₂ lp' =
        .ok ({ lp' with state := .done }, false)) :=
  ⟨(claim_C8_small_pool_finishes (fun l => l.sum)
      (fun p => .ok (p.map (fun _ => [[(1 : ℚ)]])))
      { dataset := { n := 1, labelled := {0} }, state := .ready,
        ndata_to_label := 10 }).1 (by decide),
    (claim_C8_small_pool_finishes (fun l => l.sum)
      (fun p => .ok (p.map (fun _ => [[(1 : ℚ)]])))
      { dataset := { n := 2, labelled := ∅ }, state := .ready,
        ndata_to_label := 10 }).2 [[[(1 : ℚ)]], [[1]]] (by decide)
      (by decide) rfl (by decide) (by decide)⟩
